import Mathlib

/-!
Verification of the probability/staking pipeline of the MLB betting model demo.

The numeric core of the repository is embedded shallowly over `ℚ`:
`american_to_prob` (odds-to-probability conversion), `kelly_fraction`
(bet evaluation returning `(f_star, edge)`), the inline expected-value
expression `ev`, the convex market blend `p_blended`, the recommendation
labelling of the results script, the accuracy computation, and a model of
the isotonic calibrator described by the design document (the isotonic
regression implementation itself lives in an external library).
-/

/-- Odds-to-probability conversion, `american_to_prob` in
`mlb_betting_model_HrishikeshK.py`:
`100 / (odds + 100) if odds > 0 else (-odds) / ((-odds) + 100)`. -/
def american_to_prob (odds : ℤ) : ℚ :=
  if 0 < odds then 100 / ((odds : ℚ) + 100) else (-(odds : ℚ)) / ((-(odds : ℚ)) + 100)

/-- Bet evaluation, `kelly_fraction` in `mlb_betting_model_HrishikeshK.py`:
`b = (-odds / 100) if odds < 0 else (odds / 100)`, `q = 1 - p`,
`edge = b * p - q`, `f_star = max(0.0, edge / b) if b > 0 else 0.0`,
returning the pair `(f_star, edge)`. -/
def kelly_fraction (p : ℚ) (odds : ℤ) : ℚ × ℚ :=
  let b : ℚ := if odds < 0 then (-(odds : ℚ)) / 100 else (odds : ℚ) / 100
  let q : ℚ := 1 - p
  let edge : ℚ := b * p - q
  let f_star : ℚ := if 0 < b then max 0 (edge / b) else 0
  (f_star, edge)

/-- Inline expected-value expression of the sampling demo (line 122 of
`mlb_betting_model_HrishikeshK.py`):
`p * ((-odds / 100) if odds < 0 else (odds / 100)) - (1 - p)`. -/
def ev (p : ℚ) (odds : ℤ) : ℚ :=
  p * (if odds < 0 then (-(odds : ℚ)) / 100 else (odds : ℚ) / 100) - (1 - p)

/-- Market blending (line 100 of `mlb_betting_model_HrishikeshK.py`):
`p_blended = alpha * p_calibrated + (1 - alpha) * p_market`. -/
def p_blended (alpha p_calibrated p_market : ℚ) : ℚ :=
  alpha * p_calibrated + (1 - alpha) * p_market

/-- Recommendation labelling (line 47 of `mlb_betting_model_v3_results.py`):
`np.where(EV > 0.02, "✅ Bet", "🚫 Pass")`, with the cutoff `0.02 = 1/50`. -/
def Recommendation (ev_per_dollar : ℚ) : String :=
  if 1/50 < ev_per_dollar then "✅ Bet" else "🚫 Pass"

/-- The StakingEngine contract exactly as the design document words it:
payout multiplier `b = -odds/100 if odds < 0 else odds/100`,
`edge = b·p − (1−p)`, `expected_value = edge`, and
`kelly_fraction = max(0, edge / b)` when `b > 0`, else `0`; the result pair is
`(expected_value, kelly_fraction)`. -/
def evaluate_bet_spec (p : ℚ) (odds : ℤ) : ℚ × ℚ :=
  let b : ℚ := if odds < 0 then (-(odds : ℚ)) / 100 else (odds : ℚ) / 100
  let edge : ℚ := b * p - (1 - p)
  (edge, if 0 < b then max 0 (edge / b) else 0)

/-- Claim C1, counterexample: at `odds = 0` neither function fails.
`american_to_prob 0` takes the non-positive branch and returns the
probability value `0`, and `kelly_fraction (1/2) 0` returns the stake pair
`(0, -1/2)` via the `b > 0` guard, so a probability and a stake value ARE
returned, contradicting the claim that both computations fail with
`InvalidOdds` and return nothing. -/
theorem odds_zero_counterexample :
    american_to_prob 0 = 0 ∧ kelly_fraction (1/2) 0 = (0, -(1/2)) := by
  constructor
  · norm_num [american_to_prob]
  · norm_num [kelly_fraction]

/-- Claim C1, amended: for input odds equal to `0`, neither computation
fails: `american_to_prob` takes its non-positive branch and returns the value
`0`, and `kelly_fraction` computes `b = 0`, hence returns Kelly fraction `0`
(through the `b > 0` guard) together with edge `0·p − (1−p) = p − 1`. -/
theorem odds_zero_returns_values :
    american_to_prob 0 = 0 ∧ ∀ p : ℚ, kelly_fraction p 0 = (0, p - 1) := by
  refine ⟨by norm_num [american_to_prob], fun p => ?_⟩
  simp only [kelly_fraction]
  norm_num

/-- Claim C2: for every probability `p ∈ [0,1]` and nonzero odds, the bet
evaluation computes exactly the payout multiplier, edge and guarded Kelly
fraction of the StakingEngine contract: the code's `f_star` equals the
contract's `kelly_fraction` and the code's `edge` equals the contract's
`expected_value`. -/
theorem kelly_fraction_matches_contract (p : ℚ) (odds : ℤ)
    (hp0 : 0 ≤ p) (hp1 : p ≤ 1) (ho : odds ≠ 0) :
    (kelly_fraction p odds).1 = (evaluate_bet_spec p odds).2 ∧
    (kelly_fraction p odds).2 = (evaluate_bet_spec p odds).1 := by
  simp [kelly_fraction, evaluate_bet_spec]

/-- Witness for C2 at `p = 11/20`, `odds = -110`. -/
theorem kelly_fraction_matches_contract_witness :
    (0 : ℚ) ≤ 11/20 ∧ (11 : ℚ)/20 ≤ 1 ∧ (-110 : ℤ) ≠ 0 ∧
    ((kelly_fraction (11/20) (-110)).1 = (evaluate_bet_spec (11/20) (-110)).2 ∧
     (kelly_fraction (11/20) (-110)).2 = (evaluate_bet_spec (11/20) (-110)).1) :=
  ⟨by norm_num, by norm_num, by norm_num,
    kelly_fraction_matches_contract (11/20) (-110) (by norm_num) (by norm_num) (by norm_num)⟩

/-- Claim C3: for positive odds the conversion returns `100 / (odds + 100)`,
and for negative odds it returns `(-odds) / ((-odds) + 100)`. -/
theorem american_to_prob_formula (odds : ℤ) :
    (0 < odds → american_to_prob odds = 100 / ((odds : ℚ) + 100)) ∧
    (odds < 0 → american_to_prob odds = (-(odds : ℚ)) / ((-(odds : ℚ)) + 100)) := by
  constructor
  · intro h
    simp [american_to_prob, h]
  · intro h
    have h1 : ¬ (0 < odds) := by omega
    simp [american_to_prob, h1]

/-- Witness for C3 at `odds = 110` and `odds = -110`. -/
theorem american_to_prob_formula_witness :
    ((0 : ℤ) < 110 ∧ american_to_prob 110 = 100 / (((110 : ℤ) : ℚ) + 100)) ∧
    ((-110 : ℤ) < 0 ∧
      american_to_prob (-110) = (-(((-110 : ℤ)) : ℚ)) / ((-(((-110 : ℤ)) : ℚ)) + 100)) :=
  ⟨⟨by norm_num, (american_to_prob_formula 110).1 (by norm_num)⟩,
   ⟨by norm_num, (american_to_prob_formula (-110)).2 (by norm_num)⟩⟩

/-- Claim C4, counterexample: on the first worked example (`odds = -110`,
`p = 0.55 = 11/20`) the code's edge is `11/10 · 11/20 − 9/20 = 31/200 = 0.155`,
not the claimed `0.165 = 33/200`. -/
theorem worked_example_counterexample :
    ¬ ((kelly_fraction (11/20) (-110)).2 = 33/200) := by
  norm_num [kelly_fraction]

/-- Claim C4, amended: on the spec's two worked examples the bet evaluation
yields, for `odds = -110`, `p = 0.55`: `b = 1.10`,
`edge = 1.10·0.55 − 0.45 = 0.155` and `kelly_fraction = 31/220 ≈ 0.1409`; and
for `odds = +110`, `p = 0.60`: `b = 1.10`, `edge = 0.26`,
`expected_value = 0.26` and `kelly_fraction = 13/55 ≈ 0.2364`. -/
theorem worked_examples_actual_values :
    kelly_fraction (11/20) (-110) = (31/220, 31/200) ∧
    kelly_fraction (3/5) 110 = (13/55, 13/50) ∧
    ev (3/5) 110 = 13/50 := by
  refine ⟨?_, ?_, ?_⟩ <;> norm_num [kelly_fraction, ev, max_def]

/-- Claim C6: for `p_model, p_market, alpha ∈ [0,1]` the blended probability
lies between `min p_model p_market` and `max p_model p_market`, hence in
`[0,1]`. -/
theorem blend_within_bounds (p_model p_market alpha : ℚ)
    (hm0 : 0 ≤ p_model) (hm1 : p_model ≤ 1) (hk0 : 0 ≤ p_market) (hk1 : p_market ≤ 1)
    (ha0 : 0 ≤ alpha) (ha1 : alpha ≤ 1) :
    min p_model p_market ≤ p_blended alpha p_model p_market ∧
    p_blended alpha p_model p_market ≤ max p_model p_market ∧
    0 ≤ p_blended alpha p_model p_market ∧ p_blended alpha p_model p_market ≤ 1 := by
  unfold p_blended
  rcases le_total p_model p_market with h | h
  · rw [min_eq_left h, max_eq_right h]
    refine ⟨by nlinarith, by nlinarith, by nlinarith, by nlinarith⟩
  · rw [min_eq_right h, max_eq_left h]
    refine ⟨by nlinarith, by nlinarith, by nlinarith, by nlinarith⟩

/-- Witness for C6 at `p_model = 7/10`, `p_market = 1/2`, `alpha = 7/10`. -/
theorem blend_within_bounds_witness :
    (0 : ℚ) ≤ 7/10 ∧ (7 : ℚ)/10 ≤ 1 ∧ (0 : ℚ) ≤ 1/2 ∧ (1 : ℚ)/2 ≤ 1 ∧
    (min (7/10 : ℚ) (1/2) ≤ p_blended (7/10) (7/10) (1/2) ∧
     p_blended (7/10) (7/10) (1/2) ≤ max (7/10 : ℚ) (1/2) ∧
     0 ≤ p_blended (7/10) (7/10) (1/2) ∧ p_blended (7/10) (7/10) (1/2) ≤ 1) :=
  ⟨by norm_num, by norm_num, by norm_num, by norm_num,
    blend_within_bounds (7/10) (1/2) (7/10) (by norm_num) (by norm_num) (by norm_num)
      (by norm_num) (by norm_num) (by norm_num)⟩

/-- Claim C8: for every nonzero integer odds the conversion returns a value
strictly between `0` and `1` (including odds in `(-100, 0)`). -/
theorem american_to_prob_in_unit_interval (odds : ℤ) (h : odds ≠ 0) :
    0 < american_to_prob odds ∧ american_to_prob odds < 1 := by
  unfold american_to_prob
  rcases lt_or_gt_of_ne h with hneg | hpos
  · have h1 : ¬ (0 < odds) := by omega
    rw [if_neg h1]
    have h2 : (1 : ℚ) ≤ -(odds : ℚ) := by
      have : (1 : ℤ) ≤ -odds := by omega
      exact_mod_cast this
    constructor
    · exact div_pos (by linarith) (by linarith)
    · rw [div_lt_one (by linarith)]
      linarith
  · rw [if_pos hpos]
    have h2 : (1 : ℚ) ≤ (odds : ℚ) := by exact_mod_cast hpos
    constructor
    · exact div_pos (by norm_num) (by linarith)
    · rw [div_lt_one (by linarith)]
      linarith

/-- Witness for C8 at `odds = -50`, a negative value inside `(-100, 0)`. -/
theorem american_to_prob_in_unit_interval_witness :
    (-50 : ℤ) ≠ 0 ∧ (0 < american_to_prob (-50) ∧ american_to_prob (-50) < 1) :=
  ⟨by norm_num, american_to_prob_in_unit_interval (-50) (by norm_num)⟩

/-- Claim C9: the derived recommendation label is the positive label exactly
when the expected value per unit stake is strictly greater than the cutoff
`0.02 = 1/50`, the negative label exactly when it is at most the cutoff, and
an expected value of exactly `0.02` yields the negative label. -/
theorem recommendation_threshold :
    (∀ e : ℚ, (Recommendation e = "✅ Bet" ↔ 1/50 < e) ∧
              (Recommendation e = "🚫 Pass" ↔ e ≤ 1/50)) ∧
    Recommendation (1/50) = "🚫 Pass" := by
  have hne : ("✅ Bet" : String) ≠ "🚫 Pass" := by decide
  constructor
  · intro e
    by_cases h : 1/50 < e
    · rw [Recommendation, if_pos h]
      exact ⟨⟨fun _ => h, fun _ => rfl⟩, ⟨fun hc => absurd hc hne, fun hc => absurd h (not_lt.2 hc)⟩⟩
    · rw [Recommendation, if_neg h]
      exact ⟨⟨fun hc => absurd hc.symm hne, fun hc => absurd hc h⟩,
             ⟨fun _ => not_lt.1 h, fun _ => rfl⟩⟩
  · rw [Recommendation, if_neg (by norm_num)]

/-- Claim C10: for every probability `p ∈ [0,1]` and nonzero odds, the edge
returned by `kelly_fraction` equals the separate inline expected-value
expression `ev`. -/
theorem kelly_edge_eq_ev (p : ℚ) (odds : ℤ) (hp0 : 0 ≤ p) (hp1 : p ≤ 1) (ho : odds ≠ 0) :
    (kelly_fraction p odds).2 = ev p odds := by
  simp only [kelly_fraction, ev]
  ring

/-- Witness for C10 at `p = 11/20`, `odds = -110`. -/
theorem kelly_edge_eq_ev_witness :
    (0 : ℚ) ≤ 11/20 ∧ (11 : ℚ)/20 ≤ 1 ∧ (-110 : ℤ) ≠ 0 ∧
    (kelly_fraction (11/20) (-110)).2 = ev (11/20) (-110) :=
  ⟨by norm_num, by norm_num, by norm_num,
    kelly_edge_eq_ev (11/20) (-110) (by norm_num) (by norm_num) (by norm_num)⟩

/-- An individual predicted label, `(p > 0.5).astype(int)` at lines 72 and
104 of `mlb_betting_model_HrishikeshK.py`: `1` when `p > 1/2`, else `0`. -/
def predict (p : ℚ) : ℕ := if 1/2 < p then 1 else 0

/-- Modelled from the spec: `accuracy_score` is external sklearn code; the
design document defines accuracy as the fraction of cases where the
prediction matches the label. -/
def accuracy_score (ytrue ypred : List ℕ) : ℚ :=
  (((ytrue.zip ypred).countP fun ab => ab.1 == ab.2 : ℕ) : ℚ) / (ytrue.length : ℚ)

/-- The accuracy computations `acc_v1` / `acc_v3` of lines 72 and 104:
`accuracy_score(y, (p > 0.5).astype(int))`. -/
def acc_model (ps : List ℚ) (ytrue : List ℕ) : ℚ :=
  accuracy_score ytrue (ps.map predict)

theorem match_head (a : ℚ) (b : ℕ) (hb : b ≤ 1) :
    (b == predict a) = (decide (1/2 < a) == decide (b = 1)) := by
  unfold predict
  rcases lt_or_le ((1 : ℚ)/2) a with h | h
  · rw [if_pos h, decide_eq_true h]
    interval_cases b <;> rfl
  · rw [if_neg (not_lt.mpr h), decide_eq_false (not_lt.mpr h)]
    interval_cases b <;> rfl

theorem count_matches (ps : List ℚ) (ytrue : List ℕ) (hbin : ∀ l ∈ ytrue, l ≤ 1) :
    ((ytrue.zip (ps.map predict)).countP fun ab => ab.1 == ab.2) =
    ((ps.zip ytrue).countP fun q => decide (1/2 < q.1) == decide (q.2 = 1)) := by
  induction ps generalizing ytrue with
  | nil => cases ytrue <;> simp
  | cons a t ih =>
    cases ytrue with
    | nil => simp
    | cons b yt =>
      have hb : b ≤ 1 := hbin b (by simp)
      have hrest : ∀ l ∈ yt, l ≤ 1 := fun l hl => hbin l (by simp [hl])
      simp only [List.map_cons, List.zip_cons_cons, List.countP_cons]
      rw [ih yt hrest, match_head a b hb]

/-- Claim C7: for probability and binary label vectors of the same length,
the reported accuracy equals the fraction of cases where the predicate
`p > 0.5` matches the label, and a probability of exactly `0.5` is classified
as the negative class. -/
theorem accuracy_fraction_of_matches (ps : List ℚ) (ytrue : List ℕ)
    (hlen : ps.length = ytrue.length) (hbin : ∀ l ∈ ytrue, l ≤ 1) :
    acc_model ps ytrue =
      ((((ps.zip ytrue).countP fun q => decide (1/2 < q.1) == decide (q.2 = 1) : ℕ) : ℚ) /
        (ytrue.length : ℚ)) ∧
    predict (1/2) = 0 := by
  constructor
  · rw [acc_model, accuracy_score, count_matches ps ytrue hbin]
  · norm_num [predict]

/-- Witness for C7 on `ps = [3/5, 1/2]`, `ytrue = [1, 0]`. -/
theorem accuracy_fraction_of_matches_witness :
    ([(3 : ℚ)/5, 1/2].length = [1, 0].length) ∧ (∀ l ∈ [1, 0], l ≤ 1) ∧
    (acc_model [3/5, 1/2] [1, 0] =
      (((([(3 : ℚ)/5, 1/2].zip [1, 0]).countP
          fun q => decide (1/2 < q.1) == decide (q.2 = 1) : ℕ) : ℚ) /
        (([1, 0] : List ℕ).length : ℚ)) ∧
     predict (1/2) = 0) :=
  ⟨by decide, by decide,
    accuracy_fraction_of_matches [3/5, 1/2] [1, 0] (by decide) (by decide)⟩

/-- Modelled from the spec: the mean of `ys` over the index window `[j, k]`
(used below to model the isotonic regression of the external sklearn library,
which the design document specifies as the non-decreasing step function
minimizing squared error against the labels). -/
def avgQ (ys : List ℚ) (j k : ℕ) : ℚ :=
  ((ys.drop j).take (k + 1 - j)).sum / ((k + 1 - j : ℕ) : ℚ)

/-- Modelled from the spec: the classical minimax value of least-squares
non-decreasing (isotonic) regression at index `i`: the maximum over `j ≤ i`
of the minimum over `k ∈ [i, n)` of the window mean of the labels. -/
def minimaxVal (ys : List ℚ) (i : ℕ) : ℚ :=
  if h : i < ys.length then
    (Finset.range (i + 1)).sup' Finset.nonempty_range_succ fun j =>
      (Finset.Icc i (ys.length - 1)).inf' ⟨i, by rw [Finset.mem_Icc]; omega⟩ fun k =>
        avgQ ys j k
  else 0

/-- Modelled from the spec: the fitted isotonic values at every index. -/
def isoFit (ys : List ℚ) : List ℚ :=
  (List.range ys.length).map (minimaxVal ys)

/-- A fitted calibration map: training breakpoints paired with fitted
values. -/
structure Calibrator where
  pts : List (ℚ × ℚ)

/-- Modelled from the spec: fitting the calibrator on raw probabilities `xs`
(the breakpoints) and labels `ys` pairs each breakpoint with the isotonic
fitted value at its index. -/
def Calibrator.fit (xs ys : List ℚ) : Calibrator :=
  ⟨xs.zip (isoFit ys)⟩

/-- Step-function evaluation helper: `acc` is the fitted value at the last
breakpoint already passed; clipping happens at both ends. -/
def lookupGo (acc : ℚ) : List (ℚ × ℚ) → ℚ → ℚ
  | [], _ => acc
  | (x, y) :: rest, p => if p < x then acc else lookupGo y rest p

/-- Modelled from the spec: evaluating the fitted non-decreasing step
function, with out-of-range inputs clipped to the nearest fitted boundary
value. -/
def Calibrator.transform (c : Calibrator) (p : ℚ) : ℚ :=
  match c.pts with
  | [] => 0
  | (_, y0) :: rest => lookupGo y0 rest p

theorem minimaxVal_mono (ys : List ℚ) {i i' : ℕ} (h1 : i ≤ i') (h2 : i' < ys.length) :
    minimaxVal ys i ≤ minimaxVal ys i' := by
  have hi : i < ys.length := by omega
  rw [minimaxVal, dif_pos hi, minimaxVal, dif_pos h2]
  apply Finset.sup'_le
  intro j hj
  have hsub : Finset.Icc i' (ys.length - 1) ⊆ Finset.Icc i (ys.length - 1) :=
    Finset.Icc_subset_Icc_left h1
  have hne' : (Finset.Icc i' (ys.length - 1)).Nonempty :=
    ⟨i', by rw [Finset.mem_Icc]; omega⟩
  have hj' : j ∈ Finset.range (i' + 1) := by
    rw [Finset.mem_range] at hj ⊢
    omega
  exact le_trans (Finset.inf'_mono _ hsub hne')
    (Finset.le_sup'
      (fun j => (Finset.Icc i' (ys.length - 1)).inf' hne' fun k => avgQ ys j k) hj')

theorem isoFit_chain (ys : List ℚ) : List.Chain' (· ≤ ·) (isoFit ys) := by
  rw [isoFit, List.chain'_map]
  cases hn : ys.length with
  | zero => simp
  | succ n =>
    rw [List.chain'_range_succ]
    intro m hm
    exact minimaxVal_mono ys (Nat.le_succ m) (by omega)

theorem map_snd_zip_eq_take (xs l : List ℚ) :
    ((xs.zip l).map Prod.snd) = l.take xs.length := by
  induction xs generalizing l with
  | nil => simp
  | cons a t ih =>
    cases l with
    | nil => simp
    | cons b lt => simp [ih]

theorem le_lookupGo (acc : ℚ) (rest : List (ℚ × ℚ)) (p : ℚ)
    (hch : List.Chain (· ≤ ·) acc (rest.map Prod.snd)) :
    acc ≤ lookupGo acc rest p := by
  induction rest generalizing acc with
  | nil => exact le_refl acc
  | cons hd tl ih =>
    obtain ⟨x, y⟩ := hd
    simp only [List.map_cons, List.chain_cons] at hch
    simp only [lookupGo]
    by_cases h : p < x
    · rw [if_pos h]
    · rw [if_neg h]
      exact le_trans hch.1 (ih y hch.2)

theorem lookupGo_mono (acc : ℚ) (rest : List (ℚ × ℚ)) (p1 p2 : ℚ) (hp : p1 ≤ p2)
    (hch : List.Chain (· ≤ ·) acc (rest.map Prod.snd)) :
    lookupGo acc rest p1 ≤ lookupGo acc rest p2 := by
  induction rest generalizing acc with
  | nil => exact le_refl acc
  | cons hd tl ih =>
    obtain ⟨x, y⟩ := hd
    simp only [List.map_cons, List.chain_cons] at hch
    simp only [lookupGo]
    by_cases h1 : p1 < x
    · rw [if_pos h1]
      by_cases h2 : p2 < x
      · rw [if_pos h2]
      · rw [if_neg h2]
        exact le_trans hch.1 (le_lookupGo y tl p2 hch.2)
    · rw [if_neg h1, if_neg fun h2 => h1 (lt_of_le_of_lt hp h2)]
      exact ih y hch.2

theorem transform_mono_of_chain (c : Calibrator) (p1 p2 : ℚ) (hp : p1 ≤ p2)
    (hch : List.Chain' (· ≤ ·) (c.pts.map Prod.snd)) :
    c.transform p1 ≤ c.transform p2 := by
  obtain ⟨pts⟩ := c
  cases pts with
  | nil => exact le_refl 0
  | cons hd rest =>
    obtain ⟨x0, y0⟩ := hd
    simp only [List.map_cons] at hch
    simp only [Calibrator.transform]
    exact lookupGo_mono y0 rest p1 p2 hp hch

/-- Claim C5: every calibrator fitted on raw probabilities and labels yields
a transform that is monotone non-decreasing: for all `p1 ≤ p2`,
`transform p1 ≤ transform p2`, so rank order of raw estimates is
preserved. -/
theorem calibrator_transform_monotone (xs ys : List ℚ) (p1 p2 : ℚ) (hp : p1 ≤ p2) :
    (Calibrator.fit xs ys).transform p1 ≤ (Calibrator.fit xs ys).transform p2 := by
  apply transform_mono_of_chain _ _ _ hp
  show List.Chain' (· ≤ ·) ((xs.zip (isoFit ys)).map Prod.snd)
  rw [map_snd_zip_eq_take]
  exact (isoFit_chain ys).take _

/-- Witness for C5 on the training set `xs = [1/4, 1/2, 3/4]`,
`ys = [1, 0, 1]` with `p1 = 1/3`, `p2 = 2/3`. -/
theorem calibrator_transform_monotone_witness :
    (1 : ℚ)/3 ≤ 2/3 ∧
    (Calibrator.fit [1/4, 1/2, 3/4] [1, 0, 1]).transform (1/3) ≤
      (Calibrator.fit [1/4, 1/2, 3/4] [1, 0, 1]).transform (2/3) :=
  ⟨by norm_num, calibrator_transform_monotone _ _ _ _ (by norm_num)⟩
